import Mathlib

/-!
Shallow embedding of the term/matcher/triple core of the sophia linked-data
toolkit, covering:
  * `LiteralKind` equality and hashing (src/sophia/src/term/_literal_kind.rs),
  * the built-in term matchers (src/sophia/src/term/matcher.rs),
  * the triple-as-quad view adapters (src/sophia/src/triple.rs),
  * the TriG parser adapter's base-IRI handling (src/sophia/src/parser/trig.rs).
Storage-strategy polymorphism is embedded by passing an explicit `TermData`
record (the read-only text accessor) for each storage type, so statements
range over arbitrary pairs of storage strategies, as the Rust code does with
its `T: TermData, U: TermData` bounds.
Hashing is embedded by recording the exact string fed to the hasher: two
values feed the hasher the same data iff those strings are equal.
-/

/-- Storage-abstraction capability: read-only access to the stored text.
Embeds the `TermData` trait bound (`AsRef<str>`); one value of this
structure stands for one storage strategy. -/
structure TermData (α : Type) where
  asRef : α → String

/-- The owned-`String` storage strategy. -/
def strData : TermData String :=
  ⟨fun s => s⟩

/-- ASCII lower-casing of one character, as Rust's ASCII case folding does:
`A`..`Z` map to `a`..`z`, every other character is unchanged. -/
def asciiLowerChar (c : Char) : Char :=
  if 'A' ≤ c ∧ c ≤ 'Z' then Char.ofNat (c.toNat + 32) else c

/-- Rust `str::to_ascii_lowercase`. -/
def toAsciiLowercase (s : String) : String :=
  String.mk (s.data.map asciiLowerChar)

/-- Rust `str::eq_ignore_ascii_case`: equality up to ASCII case folding
(characters outside `A`..`Z`/`a`..`z` must be identical). -/
def eqIgnoreAsciiCase (a b : String) : Bool :=
  decide (toAsciiLowercase a = toAsciiLowercase b)

/-- Rust `str::to_lowercase` as applied to language tags. Language tags are
ASCII (BCP-47), where Unicode lower-casing agrees with ASCII lower-casing,
and characters untouched by ASCII case folding are mapped char-wise; the
hash-consistency proofs rely only on these facts. -/
def toLowercase (s : String) : String :=
  String.mk (s.data.map asciiLowerChar)

/-- Modelled from the spec: the `Iri` term structure (its defining module is
not among the provided sources; only its uses are). An identifier,
"internally possibly split into a namespace part and a suffix part", the
split being "an implementation detail invisible to equality". -/
structure Iri (α : Type) where
  ns : α
  suffix : Option α

/-- The fully-reconstructed text of an `Iri` (the internal split erased). -/
def Iri.value {α : Type} (d : TermData α) (i : Iri α) : String :=
  d.asRef i.ns ++ (match i.suffix with | some s => d.asRef s | none => "")

/-- Modelled from the spec: `Iri` equality across storage strategies —
"`Iri == Iri` iff their fully-reconstructed text is identical". -/
def Iri.beq {α β : Type} (da : TermData α) (db : TermData β)
    (i1 : Iri α) (i2 : Iri β) : Bool :=
  decide (i1.value da = i2.value db)

/-- Modelled from the spec: "hashing a `Datatype` kind hashes the IRI's
normalized content" — the string fed to the hasher by `Iri`'s `Hash`. -/
def Iri.hashStr {α : Type} (d : TermData α) (i : Iri α) : String :=
  i.value d

/-- There are two kinds of literals: language-tagged, and typed.
Embeds `enum LiteralKind` (term/_literal_kind.rs, lines 8-12). -/
inductive LiteralKind (α : Type) where
  | Lang : α → LiteralKind α
  | Datatype : Iri α → LiteralKind α

/-- `PartialEq for LiteralKind` across two storage strategies
(term/_literal_kind.rs, lines 62-74). -/
def LiteralKind.beq {α β : Type} (da : TermData α) (db : TermData β) :
    LiteralKind α → LiteralKind β → Bool
  | .Lang tag1, .Lang tag2 => eqIgnoreAsciiCase (da.asRef tag1) (db.asRef tag2)
  | .Datatype iri1, .Datatype iri2 => Iri.beq da db iri1 iri2
  | _, _ => false

/-- `Hash for LiteralKind` (term/_literal_kind.rs, lines 50-60): the string
fed to the hasher — the IRI's content for `Datatype`, the lower-cased tag
for `Lang`. -/
def LiteralKind.hashStr {α : Type} (d : TermData α) : LiteralKind α → String
  | .Datatype iri => iri.hashStr d
  | .Lang tag => toLowercase (d.asRef tag)

/-- Modelled from the spec: the `Term` sum type (its defining module is not
among the provided sources): `Iri`, `BNode`, `Literal` (lexical value plus
kind), `Variable`. -/
inductive Term (α : Type) where
  | Iri : Iri α → Term α
  | BNode : α → Term α
  | Literal : α → LiteralKind α → Term α
  | Variable : α → Term α

/-- Modelled from the spec: `Term` equality across storage strategies
(spec section 4.1): `Iri` by fully-reconstructed text, `BNode` and
`Variable` by exact text, `Literal` by lexical value and `LiteralKind`;
terms of different variants are never equal. -/
def Term.beq {α β : Type} (da : TermData α) (db : TermData β) :
    Term α → Term β → Bool
  | .Iri i1, .Iri i2 => Iri.beq da db i1 i2
  | .BNode b1, .BNode b2 => decide (da.asRef b1 = db.asRef b2)
  | .Literal v1 k1, .Literal v2 k2 =>
      decide (da.asRef v1 = db.asRef v2) && LiteralKind.beq da db k1 k2
  | .Variable v1, .Variable v2 => decide (da.asRef v1 = db.asRef v2)
  | _, _ => false

/-- `TermMatcher for Term` (term/matcher.rs, lines 114-128): `constant`
returns the term itself. -/
def Term.constant {α : Type} (m : Term α) : Option (Term α) :=
  some m

/-- `TermMatcher for Term` (term/matcher.rs, lines 114-128): `matches`
holds iff `t == self`; `du` is the matcher's storage strategy, `dt` the
candidate's. -/
def Term.matches {α τ : Type} (du : TermData α) (dt : TermData τ)
    (m : Term α) (t : Term τ) : Bool :=
  Term.beq dt du t m

/-- A matcher matching either any term, or only a specific one
(term/matcher.rs, lines 77-81). -/
inductive AnyOrExactly (α : Type) where
  | Any : AnyOrExactly α
  | Exactly : α → AnyOrExactly α

/-- `TermMatcher for AnyOrExactly` (term/matcher.rs, lines 97-102):
`constant`. -/
def AnyOrExactly.constant {α : Type} :
    AnyOrExactly (Term α) → Option (Term α)
  | .Any => none
  | .Exactly t => some t

/-- `TermMatcher for AnyOrExactly` (term/matcher.rs, lines 103-111):
`matches` — wildcard in the `Any` case, `tself == t` in the `Exactly`
case. -/
def AnyOrExactly.matches {α τ : Type} (du : TermData α) (dt : TermData τ) :
    AnyOrExactly (Term α) → Term τ → Bool
  | .Any, _ => true
  | .Exactly tself, t => Term.beq du dt tself t

/-- `TermMatcher for [Term<U>]` (term/matcher.rs, lines 135-141):
`constant` is `Some` of the first member exactly when the slice has length
one, else `None`. -/
def sliceConstant {α : Type} (l : List (Term α)) : Option (Term α) :=
  if h : l.length = 1 then some (l.get ⟨0, by omega⟩) else none

/-- `TermMatcher for [Term<U>]` (term/matcher.rs, lines 142-152):
`matches` — linear scan, short-circuiting on the first member equal to the
candidate `t`. -/
def sliceMatches {α τ : Type} (da : TermData α) (dt : TermData τ)
    (l : List (Term α)) (t : Term τ) : Bool :=
  match l with
  | [] => false
  | term :: rest =>
      if Term.beq dt da t term then true else sliceMatches da dt rest t

/-- `TermMatcher for [Term<U>; N]`, N = 2..12 (macro `impl_for_array`,
term/matcher.rs, lines 157-191): `constant` is always `None`, whatever the
array holds. The array's size is carried as a hypothesis on the element
list in the theorems. -/
def arrayConstant {α : Type} (_l : List (Term α)) : Option (Term α) :=
  none

/-- `TermMatcher for [Term<U>; N]`, N = 2..12 (term/matcher.rs, lines
167-177): `matches` — the same linear scan as the slice matcher. -/
def arrayMatches {α τ : Type} (da : TermData α) (dt : TermData τ)
    (l : List (Term α)) (t : Term τ) : Bool :=
  match l with
  | [] => false
  | term :: rest =>
      if Term.beq dt da t term then true else arrayMatches da dt rest t

/-- The `Triple` capability (triple.rs, lines 23-31): subject, predicate
and object accessors over an abstract triple type `τ`; one value of this
structure stands for one `impl Triple`. -/
structure TripleOps (τ : Type) (α : Type) where
  s : τ → Term α
  p : τ → Term α
  o : τ → Term α

/-- The adapter returned by `Triple::as_quad` (triple.rs, line 105): wraps
the triple by value. -/
structure TripleAsQuad (τ : Type) where
  val : τ

/-- `Triple::as_quad` (triple.rs, lines 34-39). -/
def asQuad {τ : Type} (t : τ) : TripleAsQuad τ :=
  ⟨t⟩

/-- `TripleAsQuad::unwrap` (triple.rs, lines 108-111): get the original
triple back, consuming the adapter. -/
def TripleAsQuad.unwrap {τ : Type} (q : TripleAsQuad τ) : τ :=
  q.val

/-- `Quad::s` for `TripleAsQuad` (triple.rs, lines 116-119): delegates to
the wrapped triple; `ops` stands for the wrapped type's `Triple` impl. -/
def TripleAsQuad.qs {τ α : Type} (ops : TripleOps τ α)
    (q : TripleAsQuad τ) : Term α :=
  ops.s q.val

/-- `Quad::p` for `TripleAsQuad` (triple.rs, lines 120-123). -/
def TripleAsQuad.qp {τ α : Type} (ops : TripleOps τ α)
    (q : TripleAsQuad τ) : Term α :=
  ops.p q.val

/-- `Quad::o` for `TripleAsQuad` (triple.rs, lines 124-127). -/
def TripleAsQuad.qo {τ α : Type} (ops : TripleOps τ α)
    (q : TripleAsQuad τ) : Term α :=
  ops.o q.val

/-- `Quad::g` for `TripleAsQuad` (triple.rs, lines 128-131): always the
default graph, `None`. -/
def TripleAsQuad.qg {τ α : Type} (_ops : TripleOps τ α)
    (_q : TripleAsQuad τ) : Option (Term α) :=
  none

/-- The adapter returned by `Triple::as_quad_from` (triple.rs, line 135):
wraps the triple by value together with one explicit graph-name term. -/
structure TripleAsQuadFrom (τ : Type) (α : Type) where
  val : τ
  name : Term α

/-- `Triple::as_quad_from` (triple.rs, lines 42-47). -/
def asQuadFrom {τ α : Type} (t : τ) (name : Term α) : TripleAsQuadFrom τ α :=
  ⟨t, name⟩

/-- `TripleAsQuadFrom::unwrap` (triple.rs, lines 139-141): get the
original triple back, discarding the graph name. -/
def TripleAsQuadFrom.unwrap {τ α : Type} (q : TripleAsQuadFrom τ α) : τ :=
  q.val

/-- `Quad::s` for `TripleAsQuadFrom` (triple.rs, lines 146-149). -/
def TripleAsQuadFrom.qs {τ α : Type} (ops : TripleOps τ α)
    (q : TripleAsQuadFrom τ α) : Term α :=
  ops.s q.val

/-- `Quad::p` for `TripleAsQuadFrom` (triple.rs, lines 150-153). -/
def TripleAsQuadFrom.qp {τ α : Type} (ops : TripleOps τ α)
    (q : TripleAsQuadFrom τ α) : Term α :=
  ops.p q.val

/-- `Quad::o` for `TripleAsQuadFrom` (triple.rs, lines 154-157). -/
def TripleAsQuadFrom.qo {τ α : Type} (ops : TripleOps τ α)
    (q : TripleAsQuadFrom τ α) : Term α :=
  ops.o q.val

/-- `Quad::g` for `TripleAsQuadFrom` (triple.rs, lines 158-161): reports
the stored graph name. -/
def TripleAsQuadFrom.qg {τ α : Type} (q : TripleAsQuadFrom τ α) :
    Option (Term α) :=
  some q.name

/-- The data handed to the external RIO TriG parser by
`RioTriGParser::new(data, base)`: the external crate is opaque, but the
source it yields is a function of exactly these two arguments. -/
structure RioTriGParser (B : Type) where
  data : B
  base : String

/-- Modelled from the spec: `StrictRioSource` (parser/rio_common.rs is not
among the provided sources) wraps a format-specific parser into the
strict, uniform fact-stream adapter. -/
structure StrictRioSource (P : Type) where
  parser : P

/-- `StrictRioSource::from` (parser/rio_common.rs, via trig.rs line 23). -/
def StrictRioSource.ofParser {P : Type} (p : P) : StrictRioSource P :=
  ⟨p⟩

/-- TriG parser based on RIO (parser/trig.rs, lines 11-14): an optional
base IRI. -/
structure TriGParser where
  base : Option String

/-- `QuadParser::parse` for `TriGParser` (parser/trig.rs, lines 18-24):
choose the configured base, or the sentinel when absent, and hand it to
the RIO parser wrapped in a strict source. -/
def TriGParser.parse {B : Type} (self : TriGParser) (data : B) :
    StrictRioSource (RioTriGParser B) :=
  let base : String :=
    match self.base with
    | some base => base
    | none => "x-no-base:///"
  StrictRioSource.ofParser (RioTriGParser.mk data base)

/-- Modelled from the spec: one outcome reported by the underlying
format-specific parser for one pulled statement — a quad, the end of the
input, or a failure such as a relative IRI that could not be resolved
against the configured base. -/
inductive RioItem (Q : Type) where
  | ok : Q → RioItem Q
  | unresolvedRelativeIri : String → RioItem Q
  | done : RioItem Q

/-- Modelled from the spec: what one pull from the strict adapter yields —
the next quad, end of stream, or a `ParseError` carrying a human-readable
description. -/
inductive PullOutcome (Q : Type) where
  | quad : Q → PullOutcome Q
  | endOfStream : PullOutcome Q
  | parseError : String → PullOutcome Q

/-- Modelled from the spec: in strict mode the adapter surfaces any
underlying failure — in particular a relative IRI that cannot be resolved
— as a `ParseError`, never as a quad (spec section 4.5). -/
def StrictRioSource.surface {Q : Type} : RioItem Q → PullOutcome Q
  | .ok q => .quad q
  | .done => .endOfStream
  | .unresolvedRelativeIri iri =>
      .parseError ("relative IRI cannot be resolved against the base: " ++ iri)

/-! Helper lemmas shared by several claim proofs. -/

theorem iri_beq_symm {α β : Type} (da : TermData α) (db : TermData β)
    (i1 : Iri α) (i2 : Iri β) :
    Iri.beq da db i1 i2 = Iri.beq db da i2 i1 := by
  simp only [Iri.beq]
  exact decide_eq_decide.mpr ⟨Eq.symm, Eq.symm⟩

theorem literal_kind_beq_symm {α β : Type} (da : TermData α) (db : TermData β)
    (a : LiteralKind α) (b : LiteralKind β) :
    LiteralKind.beq da db a b = LiteralKind.beq db da b a := by
  cases a <;> cases b <;> simp only [LiteralKind.beq, eqIgnoreAsciiCase]
  case Lang.Lang tag1 tag2 => exact decide_eq_decide.mpr ⟨Eq.symm, Eq.symm⟩
  case Datatype.Datatype i1 i2 => exact iri_beq_symm da db i1 i2

theorem term_beq_symm {α β : Type} (da : TermData α) (db : TermData β)
    (a : Term α) (b : Term β) :
    Term.beq da db a b = Term.beq db da b a := by
  cases a <;> cases b <;> simp only [Term.beq]
  case Iri.Iri i1 i2 => exact iri_beq_symm da db i1 i2
  case BNode.BNode b1 b2 => exact decide_eq_decide.mpr ⟨Eq.symm, Eq.symm⟩
  case Literal.Literal v1 k1 v2 k2 =>
    rw [literal_kind_beq_symm da db k1 k2,
      decide_eq_decide.mpr ⟨Eq.symm, Eq.symm⟩ ]
  case Variable.Variable v1 v2 => exact decide_eq_decide.mpr ⟨Eq.symm, Eq.symm⟩

theorem sliceMatches_iff {α τ : Type} (da : TermData α) (dt : TermData τ)
    (l : List (Term α)) (t : Term τ) :
    sliceMatches da dt l t = true ↔
      ∃ m, m ∈ l ∧ Term.beq dt da t m = true := by
  induction l with
  | nil => simp [sliceMatches]
  | cons x xs ih =>
      cases hb : Term.beq dt da t x with
      | true =>
          simp only [sliceMatches, hb, if_true]
          exact iff_of_true trivial ⟨x, List.mem_cons_self x xs, hb⟩
      | false =>
          simp only [sliceMatches, hb, Bool.false_eq_true, if_false]
          rw [ih]
          constructor
          · rintro ⟨m, hm, hbm⟩
            exact ⟨m, List.mem_cons_of_mem x hm, hbm⟩
          · rintro ⟨m, hm, hbm⟩
            rcases List.mem_cons.mp hm with hmx | hmxs
            · subst hmx
              rw [hbm] at hb
              exact absurd hb (by simp)
            · exact ⟨m, hmxs, hbm⟩

theorem arrayMatches_iff {α τ : Type} (da : TermData α) (dt : TermData τ)
    (l : List (Term α)) (t : Term τ) :
    arrayMatches da dt l t = true ↔
      ∃ m, m ∈ l ∧ Term.beq dt da t m = true := by
  induction l with
  | nil => simp [arrayMatches]
  | cons x xs ih =>
      cases hb : Term.beq dt da t x with
      | true =>
          simp only [arrayMatches, hb, if_true]
          exact iff_of_true trivial ⟨x, List.mem_cons_self x xs, hb⟩
      | false =>
          simp only [arrayMatches, hb, Bool.false_eq_true, if_false]
          rw [ih]
          constructor
          · rintro ⟨m, hm, hbm⟩
            exact ⟨m, List.mem_cons_of_mem x hm, hbm⟩
          · rintro ⟨m, hm, hbm⟩
            rcases List.mem_cons.mp hm with hmx | hmxs
            · subst hmx
              rw [hbm] at hb
              exact absurd hb (by simp)
            · exact ⟨m, hmxs, hbm⟩

theorem sliceConstant_eq_some {α : Type} {l : List (Term α)} {c : Term α}
    (h : sliceConstant l = some c) : l = [c] := by
  match l with
  | [] => simp [sliceConstant] at h
  | [x] =>
      simp [sliceConstant] at h
      rw [h]
  | x :: y :: ys => simp [sliceConstant] at h

/-! The claim theorems. -/

/-- Claim C1: equality of two `Lang` literal kinds is case-insensitive on
the tag, for any pair of storage strategies: `Lang a == Lang b` iff the
two tags agree up to letter case; in particular `Lang "fr-FR"` equals
`Lang "fr-fr"`, and `Lang "fr"` equals neither. -/
theorem lang_eq_case_insensitive :
    (∀ (α β : Type) (da : TermData α) (db : TermData β) (a : α) (b : β),
      LiteralKind.beq da db (LiteralKind.Lang a) (LiteralKind.Lang b) = true ↔
        toAsciiLowercase (da.asRef a) = toAsciiLowercase (db.asRef b)) ∧
    LiteralKind.beq strData strData (LiteralKind.Lang ("fr-FR"))
      (LiteralKind.Lang ("fr-fr")) = true ∧
    LiteralKind.beq strData strData (LiteralKind.Lang ("fr"))
      (LiteralKind.Lang ("fr-FR")) = false ∧
    LiteralKind.beq strData strData (LiteralKind.Lang ("fr"))
      (LiteralKind.Lang ("fr-fr")) = false := by
  refine ⟨fun α β da db a b => ?_, by decide, by decide, by decide⟩
  simp [LiteralKind.beq, eqIgnoreAsciiCase]

/-- Claim C2: hashing of `LiteralKind` is consistent with its equality:
for all kinds `k1`, `k2` under any storage strategies, `k1 == k2` implies
they feed the hasher the same data; a `Lang` kind hashes its tag
lower-cased and a `Datatype` kind hashes the IRI's content. -/
theorem literal_kind_hash_consistent :
    (∀ (α β : Type) (da : TermData α) (db : TermData β)
      (k1 : LiteralKind α) (k2 : LiteralKind β),
      LiteralKind.beq da db k1 k2 = true →
        LiteralKind.hashStr da k1 = LiteralKind.hashStr db k2) ∧
    (∀ (α : Type) (d : TermData α) (tag : α),
      LiteralKind.hashStr d (LiteralKind.Lang tag) = toLowercase (d.asRef tag)) ∧
    (∀ (α : Type) (d : TermData α) (iri : Iri α),
      LiteralKind.hashStr d (LiteralKind.Datatype iri) = iri.value d) := by
  refine ⟨?_, fun α d tag => rfl, fun α d iri => rfl⟩
  intro α β da db k1 k2 h
  cases k1 <;> cases k2 <;>
    simp only [LiteralKind.beq, eqIgnoreAsciiCase, Iri.beq,
      decide_eq_true_eq, Bool.false_eq_true] at h
  case Lang.Lang tag1 tag2 =>
    simpa only [LiteralKind.hashStr, toLowercase, toAsciiLowercase] using h
  case Datatype.Datatype i1 i2 =>
    simpa only [LiteralKind.hashStr, Iri.hashStr] using h

/-- Witness for claim C2 at a concrete input: the kinds `Lang "fr-FR"` and
`Lang "fr-fr"` are equal, so their hash data coincide. -/
theorem literal_kind_hash_consistent_witness :
    LiteralKind.hashStr strData (LiteralKind.Lang ("fr-FR")) =
      LiteralKind.hashStr strData (LiteralKind.Lang ("fr-fr")) :=
  literal_kind_hash_consistent.1 String String strData strData
    (LiteralKind.Lang ("fr-FR")) (LiteralKind.Lang ("fr-fr")) (by decide)

/-- Claim C3: `LiteralKind` equality is a true equivalence relation
regardless of storage-strategy mixing: reflexive, symmetric, and
transitive across three possibly different storage strategies. -/
theorem literal_kind_eq_equivalence :
    (∀ (α : Type) (da : TermData α) (a : LiteralKind α),
      LiteralKind.beq da da a a = true) ∧
    (∀ (α β : Type) (da : TermData α) (db : TermData β)
      (a : LiteralKind α) (b : LiteralKind β),
      LiteralKind.beq da db a b = true → LiteralKind.beq db da b a = true) ∧
    (∀ (α β γ : Type) (da : TermData α) (db : TermData β) (dc : TermData γ)
      (a : LiteralKind α) (b : LiteralKind β) (c : LiteralKind γ),
      LiteralKind.beq da db a b = true → LiteralKind.beq db dc b c = true →
        LiteralKind.beq da dc a c = true) := by
  refine ⟨?_, ?_, ?_⟩
  · intro α da a
    cases a <;> simp [LiteralKind.beq, eqIgnoreAsciiCase, Iri.beq]
  · intro α β da db a b h
    rw [literal_kind_beq_symm db da b a]
    exact h
  · intro α β γ da db dc a b c hab hbc
    cases a <;> cases b <;>
      simp only [LiteralKind.beq, eqIgnoreAsciiCase, Iri.beq,
        decide_eq_true_eq, Bool.false_eq_true] at hab
    all_goals cases c <;>
      simp only [LiteralKind.beq, eqIgnoreAsciiCase, Iri.beq,
        decide_eq_true_eq, Bool.false_eq_true] at hbc ⊢
    all_goals exact hab.trans hbc

/-- Witness for claim C3 at a concrete input: transitivity applied to
`Lang "fr-FR" == Lang "fr-fr"` and `Lang "fr-fr" == Lang "FR-fr"`. -/
theorem literal_kind_eq_equivalence_witness :
    LiteralKind.beq strData strData (LiteralKind.Lang ("fr-FR"))
      (LiteralKind.Lang ("FR-fr")) = true :=
  literal_kind_eq_equivalence.2.2 String String String strData strData strData
    (LiteralKind.Lang ("fr-FR")) (LiteralKind.Lang ("fr-fr"))
    (LiteralKind.Lang ("FR-fr")) (by decide) (by decide)

/-- Claim C4: matcher/constant consistency for every built-in matcher
variant exposing a constant — a term used as matcher, `AnyOrExactly`, and
a slice of terms: when `constant` returns `some c`, `matches u` holds
exactly when `u == c`, for every candidate `u` under any storage
strategy. -/
theorem matcher_constant_consistent :
    (∀ (α τ : Type) (du : TermData α) (dt : TermData τ)
      (m : Term α) (c : Term α),
      Term.constant m = some c →
      ∀ u : Term τ, Term.matches du dt m u = Term.beq dt du u c) ∧
    (∀ (α τ : Type) (du : TermData α) (dt : TermData τ)
      (m : AnyOrExactly (Term α)) (c : Term α),
      AnyOrExactly.constant m = some c →
      ∀ u : Term τ, AnyOrExactly.matches du dt m u = Term.beq dt du u c) ∧
    (∀ (α τ : Type) (du : TermData α) (dt : TermData τ)
      (l : List (Term α)) (c : Term α),
      sliceConstant l = some c →
      ∀ u : Term τ, sliceMatches du dt l u = Term.beq dt du u c) := by
  refine ⟨?_, ?_, ?_⟩
  · intro α τ du dt m c h u
    rw [Option.some.inj h]
    rfl
  · intro α τ du dt m c h u
    cases m with
    | Any => exact absurd h (by simp [AnyOrExactly.constant])
    | Exactly tself =>
        rw [Option.some.inj (h : some tself = some c)]
        exact term_beq_symm du dt c u
  · intro α τ du dt l c h u
    rw [sliceConstant_eq_some h]
    cases hb : Term.beq dt du u c <;> simp [sliceMatches, hb]

/-- Witness for claim C4 at concrete inputs: each of the three variants
applied with its `constant` hypothesis discharged. -/
theorem matcher_constant_consistent_witness :
    Term.matches strData strData (Term.BNode ("alice")) (Term.BNode ("alice")) =
      Term.beq strData strData (Term.BNode ("alice")) (Term.BNode ("alice")) ∧
    AnyOrExactly.matches strData strData
      (AnyOrExactly.Exactly (Term.BNode ("alice"))) (Term.BNode ("bob")) =
      Term.beq strData strData (Term.BNode ("bob")) (Term.BNode ("alice")) ∧
    sliceMatches strData strData [Term.BNode ("alice")] (Term.BNode ("bob")) =
      Term.beq strData strData (Term.BNode ("bob")) (Term.BNode ("alice")) :=
  ⟨matcher_constant_consistent.1 String String strData strData
      (Term.BNode ("alice")) (Term.BNode ("alice")) rfl (Term.BNode ("alice")),
    matcher_constant_consistent.2.1 String String strData strData
      (AnyOrExactly.Exactly (Term.BNode ("alice"))) (Term.BNode ("alice")) rfl
      (Term.BNode ("bob")),
    matcher_constant_consistent.2.2 String String strData strData
      [Term.BNode ("alice")] (Term.BNode ("alice")) (by simp [sliceConstant])
      (Term.BNode ("bob"))⟩

/-- Claim C5: slice-of-terms matcher semantics — `matches t` holds iff `t`
equals some member of the slice (so the empty slice never matches
anything), and `constant` is `some` of the single member exactly when the
slice has length one, else `none`. -/
theorem slice_matcher_semantics :
    (∀ (α τ : Type) (da : TermData α) (dt : TermData τ)
      (l : List (Term α)) (t : Term τ),
      sliceMatches da dt l t = true ↔
        ∃ m, m ∈ l ∧ Term.beq dt da t m = true) ∧
    (∀ (α τ : Type) (da : TermData α) (dt : TermData τ) (t : Term τ),
      sliceMatches da dt ([] : List (Term α)) t = false) ∧
    (∀ (α : Type) (m : Term α), sliceConstant [m] = some m) ∧
    (∀ (α : Type) (l : List (Term α)),
      l.length ≠ 1 → sliceConstant l = none) := by
  refine ⟨fun α τ da dt l t => sliceMatches_iff da dt l t,
    fun α τ da dt t => rfl, fun α m => by simp [sliceConstant], ?_⟩
  intro α l h
  unfold sliceConstant
  rw [dif_neg h]

/-- Witness for claim C5 at a concrete input: a two-element slice has no
constant. -/
theorem slice_matcher_semantics_witness :
    sliceConstant [Term.BNode ("alice"), Term.BNode ("bob")] = none :=
  slice_matcher_semantics.2.2.2 String
    [Term.BNode ("alice"), Term.BNode ("bob")] (by decide)

/-- Claim C6: for every fixed-size array matcher of size 2 through 12,
`matches t` holds iff `t` equals some element (same semantics as the slice
matcher), and `constant` always returns `none`, even when all elements are
equal. -/
theorem array_matcher_semantics :
    ∀ (n : Nat), 2 ≤ n → n ≤ 12 →
    ∀ (α τ : Type) (da : TermData α) (dt : TermData τ) (l : List (Term α)),
      l.length = n →
      (∀ t : Term τ, (arrayMatches da dt l t = true ↔
          ∃ m, m ∈ l ∧ Term.beq dt da t m = true)) ∧
      arrayConstant l = none := by
  intro n _ _ α τ da dt l _
  exact ⟨fun t => arrayMatches_iff da dt l t, rfl⟩

/-- Witness for claim C6 at a concrete input: a size-2 array whose two
elements are equal (a de-facto singleton) still has no constant. -/
theorem array_matcher_semantics_witness :
    (∀ t : Term String,
      (arrayMatches strData strData
          [Term.BNode ("alice"), Term.BNode ("alice")] t = true ↔
        ∃ m, m ∈ [Term.BNode ("alice"), Term.BNode ("alice")] ∧
          Term.beq strData strData t m = true)) ∧
    arrayConstant [Term.BNode ("alice"), Term.BNode ("alice")] = none :=
  array_matcher_semantics 2 (by decide) (by decide) String String
    strData strData [Term.BNode ("alice"), Term.BNode ("alice")] rfl

/-- Claim C9: the slice matcher's `constant` is determined by the slice's
length alone, not by the number of distinct members: the two-element slice
`[t, t]` matches exactly the terms equal to `t`, yet its `constant` is
`none`. -/
theorem slice_constant_by_length_only :
    ∀ (α τ : Type) (da : TermData α) (dt : TermData τ) (t : Term α),
      (∀ u : Term τ, sliceMatches da dt [t, t] u = Term.beq dt da u t) ∧
      sliceConstant [t, t] = none := by
  intro α τ da dt t
  constructor
  · intro u
    cases hb : Term.beq dt da u t <;> simp [sliceMatches, hb]
  · unfold sliceConstant
    rw [dif_neg (by simp)]

/-- Claim C7: view-adapter round-trip — for every triple `t` (any type
with a `Triple` impl `ops`), `as_quad t` has graph accessor `none` and
unwraps to `t`; for every graph-name term `g`, `as_quad_from t g` has
graph accessor `some g` and unwraps to `t`, discarding `g`; both
adapters' `s`/`p`/`o` accessors return exactly the wrapped triple's
components. -/
theorem view_adapter_roundtrip :
    ∀ (τ α : Type) (ops : TripleOps τ α) (t : τ) (g : Term α),
      TripleAsQuad.qg ops (asQuad t) = none ∧
      TripleAsQuad.unwrap (asQuad t) = t ∧
      TripleAsQuad.qs ops (asQuad t) = ops.s t ∧
      TripleAsQuad.qp ops (asQuad t) = ops.p t ∧
      TripleAsQuad.qo ops (asQuad t) = ops.o t ∧
      TripleAsQuadFrom.qg (asQuadFrom t g) = some g ∧
      TripleAsQuadFrom.unwrap (asQuadFrom t g) = t ∧
      TripleAsQuadFrom.qs ops (asQuadFrom t g) = ops.s t ∧
      TripleAsQuadFrom.qp ops (asQuadFrom t g) = ops.p t ∧
      TripleAsQuadFrom.qo ops (asQuadFrom t g) = ops.o t :=
  fun _τ _α _ops _t _g =>
    ⟨rfl, rfl, rfl, rfl, rfl, rfl, rfl, rfl, rfl, rfl⟩

/-- Claim C8: configured without an explicit base identifier, the adapter
hands the sentinel no-base identifier to the underlying parser, and a
relative IRI that cannot be resolved surfaces as a parse error, never
silently as a quad. -/
theorem trig_no_base_sentinel :
    (∀ (B : Type) (data : B),
      (TriGParser.parse ⟨none⟩ data).parser.base = "x-no-base:///") ∧
    (∀ (Q : Type) (iri : String),
      ∃ msg,
        StrictRioSource.surface
          (RioItem.unresolvedRelativeIri iri : RioItem Q) =
          PullOutcome.parseError msg ∧
        ∀ q : Q,
          StrictRioSource.surface
            (RioItem.unresolvedRelativeIri iri : RioItem Q) ≠
            PullOutcome.quad q) :=
  ⟨fun _B _data => rfl,
    fun _Q iri =>
      ⟨"relative IRI cannot be resolved against the base: " ++ iri,
        rfl, fun _q h => PullOutcome.noConfusion h⟩⟩

/-- Claim C10: the TriG parser's no-base sentinel is the concrete absolute
identifier `x-no-base:///` — for every input, parsing with `base = none`
produces exactly the same source as parsing with
`base = some "x-no-base:///"`. -/
theorem trig_parse_none_eq_sentinel :
    ∀ (B : Type) (data : B),
      TriGParser.parse ⟨none⟩ data =
        TriGParser.parse ⟨some ("x-no-base:///")⟩ data :=
  fun _B _data => rfl
